import Mathlib

/-!
Verification of the RustPrompt context-cache and merge engine.

The Rust sources are shallowly embedded: `PathBuf`/`String` become `String`
(viewed through its `data : List Char` field where character-level work is
needed), `HashSet<PathBuf>` becomes a duplicate-free `List String`,
`HashMap<PathBuf, String>` becomes an association list `List (String × String)`
with unique keys, and the async/lock structure of `executor.rs` becomes a pure
state-transition function `execute : Command → Env → AppState → AppState × Except AppError Unit`
where `Env` carries the results of the external collaborators (file system
scan, file reads, tree enumeration, tokenizer) that the Rust code awaits.
All string manipulation is re-implemented structurally on `List Char` so that
every definition evaluates inside the kernel.
-/

namespace RustPrompt

/-! ## Character-list string machinery (models of the Rust `str` operations used) -/

/-- Lexicographic comparison of character lists, modelling the ordering of
Rust `String`/`PathBuf` comparisons (byte-wise lexicographic). -/
def lexLe : List Char → List Char → Bool
  | [], _ => true
  | _ :: _, [] => false
  | a :: as, b :: bs => if a = b then lexLe as bs else decide (a < b)

/-- Path ordering on the embedded `String` paths, used wherever the Rust code
sorts paths (`children.sort()`, and the merge's sort-by-path step). -/
def pathLe (a b : String) : Bool := lexLe a.data b.data

/-- Model of Rust `str::trim`: drop whitespace from both ends. -/
def rustTrim (s : String) : String :=
  ⟨((s.data.dropWhile Char.isWhitespace).reverse.dropWhile Char.isWhitespace).reverse⟩

/-- Accumulator-based tokenizer behind `split_whitespace`. -/
def splitWsAux : List Char → List Char → List String
  | [], acc => if acc = [] then [] else [(⟨acc.reverse⟩ : String)]
  | c :: cs, acc =>
    if c.isWhitespace then
      (if acc = [] then [] else [(⟨acc.reverse⟩ : String)]) ++ splitWsAux cs []
    else
      splitWsAux cs (c :: acc)

/-- Model of Rust `str::split_whitespace`: maximal runs of non-whitespace
characters, with no empty tokens. -/
def split_whitespace (s : String) : List String := splitWsAux s.data []

/-- Splits a character list at every newline character (helper for `rust_lines`). -/
def splitNlAux : List Char → List Char → List (List Char)
  | [], acc => [acc.reverse]
  | c :: cs, acc => if c = '\n' then acc.reverse :: splitNlAux cs [] else splitNlAux cs (c :: acc)

/-- Model of Rust `str::lines`: split on newline, a trailing newline does not
produce a final empty line, and the empty string has no lines.  (The `\r\n`
normalization of Rust is not modelled; no claim depends on carriage returns.) -/
def rust_lines (s : String) : List String :=
  if s.data = [] then []
  else
    let parts := (splitNlAux s.data []).map (fun l => (⟨l⟩ : String))
    if s.data.getLast? = some '\n' then parts.dropLast else parts

/-- ASCII lowercasing of one character, the fragment of Rust `str::to_lowercase`
exercised by `/mode` arguments. -/
def lowerChar (c : Char) : Char :=
  if 'A' ≤ c ∧ c ≤ 'Z' then Char.ofNat (c.toNat + 32) else c

/-- Model of Rust `str::to_lowercase` restricted to ASCII. -/
def rustToLower (s : String) : String := ⟨s.data.map lowerChar⟩

/-- Newline join, model of `Vec::join("\n")` / `lines.join("\n")`. -/
def joinNl : List String → String
  | [] => ""
  | [s] => s
  | s :: rest => s ++ ("\n" ++ joinNl rest)

/-- Splits `hay` around the LAST occurrence of `pat`, returning the part before
and the part starting at the occurrence.  Models `str::rfind` followed by
`String::insert_str` at the found position. -/
def split_at_last : List Char → List Char → Option (List Char × List Char)
  | [], _ => none
  | c :: rest, pat =>
    match split_at_last rest pat with
    | some (a, b) => some (c :: a, b)
    | none => if pat.isPrefixOf (c :: rest) then some ([], c :: rest) else none

/-! ## Data model (`app/state.rs`, `command/definition.rs`, `error.rs`) -/

/-- `ReplMode` from `app/state.rs`. -/
inductive ReplMode where
  | manual
  | prompt
deriving DecidableEq, Repr

/-- `ReplEditorMode` from `app/state.rs`. -/
inductive ReplEditorMode where
  | singleLine
  | multiLine
deriving DecidableEq, Repr

/-- `Command` from `command/definition.rs`, plus the `ResetPrompt` variant
that `command/parser.rs` and `command/executor.rs` construct and match on
(the snapshot's `definition.rs` predates it). -/
inductive Command where
  | add (path : String)
  | remove (path : String)
  | showContext
  | copy
  | reset
  | help
  | quit
  | unknown (s : String)
  | mode (opt : Option String)
  | prompt
  | appendPromptText (s : String)
  | resetPrompt
deriving DecidableEq, Repr

/-- `AppError` from `error.rs`, reduced to its message payload. -/
abbrev AppError := String

/-- Virtual-path constant `PROJECT_TREE_VIRTUAL_PATH` from `app/state.rs`. -/
def PROJECT_TREE_VIRTUAL_PATH : String := "__PROJECT_TREE__"

/-- `AppState` from `app/state.rs`.  `selected_paths` is kept as a
duplicate-free list (a `HashSet` determinized by insertion order), and
`partial_docs` as an association list with unique keys (a determinized
`HashMap`). -/
structure AppState where
  selected_paths : List String
  file_count : Nat
  token_count : Nat
  partial_docs : List (String × String)
  cached_xml : String
  mode : ReplMode
  prompt_text : String
  editor_mode : ReplEditorMode
deriving DecidableEq, Repr

/-- `AppState::new`. -/
def AppState.new : AppState where
  selected_paths := []
  file_count := 0
  token_count := 0
  partial_docs := []
  cached_xml := ""
  mode := ReplMode.manual
  prompt_text := ""
  editor_mode := ReplEditorMode.singleLine

/-- Results of the external collaborators one `execute` call may consult:
the `files_scanner::scan_dir` result for the command's path argument, the
per-file `fs::read_to_string` results (`none` models a read error, which the
code degrades to empty content), the `generate_project_tree_string` result
(`none` models a walk error, degraded to the empty tree text), and the
tokenizer `calculate_tokens_in_string` (`none` models a tiktoken failure). -/
structure Env where
  scan : Except AppError (List String)
  readFile : String → Option String
  treeText : Option String
  tok : String → Option Nat

/-- `HashSet::insert`: add the path only when absent. -/
def insertPath (l : List String) (p : String) : List String :=
  if p ∈ l then l else l ++ [p]

/-- `HashSet::remove` / the remove loop: drop the path. -/
def removePath (l : List String) (p : String) : List String :=
  l.filter (fun x => x ≠ p)

/-- `HashMap::insert`: overwrite the value when the key is present, append
otherwise. -/
def insertDoc (m : List (String × String)) (k v : String) : List (String × String) :=
  if (List.lookup k m).isSome then m.map (fun e => if e.1 = k then (k, v) else e)
  else m ++ [(k, v)]

/-- `HashMap::remove`. -/
def removeDoc (m : List (String × String)) (k : String) : List (String × String) :=
  m.filter (fun e => e.1 ≠ k)

end RustPrompt

namespace RustPrompt

/-! ## Fragment rendering and the merge engine

`generate_single_file_snippet` and `merge_all_snippets` are imported by
`app/snippet_manager.rs` from `core/xml.rs`, but only `generate_xml` of that
module is under `src/`; the two functions' bodies are missing and are
modelled from the spec below. -/

/-- The characters of the index-attribute marker, the "index attribute's value
span" the merge step searches for. -/
def idx_pat : List Char := ['i', 'n', 'd', 'e', 'x', '=', '"']

/-- Drops the old attribute value: everything up to (but not including) the
closing double quote. -/
def drop_old_value : List Char → List Char
  | [] => []
  | c :: cs => if c = '"' then c :: cs else drop_old_value cs

/-- Replaces the value of the first `index="..."` occurrence with `idx`,
leaving everything else untouched. -/
def subst_index : List Char → List Char → List Char
  | [], _ => []
  | c :: cs, idx =>
    if idx_pat.isPrefixOf (c :: cs) then
      idx_pat ++ (idx ++ drop_old_value (List.drop 7 (c :: cs)))
    else
      c :: subst_index cs idx

/-- Modelled from the spec: step (3) of §4.3's merge — "rewrite each fragment's
embedded index in place via targeted text substitution (find the index
attribute's value span and replace it — no full re-parse)".  The function body
is not under `src/` (only its caller `merge_all_snippets` is named there). -/
def set_fragment_index (frag : String) (idx : Nat) : String :=
  ⟨subst_index frag.data (toString idx).data⟩

/-- Modelled from the spec: `generate_single_file_snippet` (imported by
`app/snippet_manager.rs` from `core/xml.rs` but missing from `src/`) renders
one self-contained `<document index="idx">` fragment holding a `<source>` path
element and a `<document_content>` element whose body is the raw file text,
newline-terminated (empty content stays empty), following §6's output-document
format and the per-file shape of `generate_xml` in `core/xml.rs`. -/
def generate_single_file_snippet (path content : String) (idx : Nat) : String :=
  "<document index=\"" ++ (toString idx ++ ("\">\n<source>" ++ (path ++ ("</source>\n<document_content>\n" ++
    ((if content = "" then "" else if content.data.getLast? = some '\n' then content else content ++ "\n") ++
    "</document_content>\n</document>")))))

/-- Prop form of the key ordering used by the merge's sort-by-path step. -/
def entryLe (a b : String × String) : Prop := pathLe a.1 b.1 = true

instance : DecidableRel entryLe := fun a b => instDecidableEqBool (pathLe a.1 b.1) true

/-- Prop form of `pathLe` on bare paths. -/
def pLe (a b : String) : Prop := pathLe a b = true

instance : DecidableRel pLe := fun a b => instDecidableEqBool (pathLe a b) true

/-- Assigns indices `n, n+1, …` to a list of fragments via the targeted
substitution (step (2)/(3) of §4.3: real entries get `2..N`). -/
def number_from : Nat → List String → List String
  | _, [] => []
  | n, f :: fs => set_fragment_index f n :: number_from (n + 1) fs

/-- Modelled from the spec: `merge_all_snippets` (imported by
`app/snippet_manager.rs` from `core/xml.rs` but missing from `src/`) follows
§4.3's deterministic steps: (1) the virtual entry, when present, gets embedded
index 1; (2) all non-virtual entries are sorted by path ascending and assigned
indices `2..N`; (3) indices are rewritten by targeted text substitution;
(4) the virtual fragment (if present) followed by the sorted real fragments
are concatenated, newline-separated, inside one outer `<documents>` element. -/
def merge_all_snippets (docs : List (String × String)) : String :=
  let virt := List.lookup PROJECT_TREE_VIRTUAL_PATH docs
  let reals := List.insertionSort entryLe (docs.filter (fun e => e.1 != PROJECT_TREE_VIRTUAL_PATH))
  let frags :=
    (match virt with
     | some v => [set_fragment_index v 1]
     | none => []) ++ number_from 2 (reals.map Prod.snd)
  "<documents>\n" ++ (joinNl frags ++ "\n</documents>")

/-! ## Snippet manager (`app/snippet_manager.rs`) -/

/-- `SnippetManager::add_files_snippet`: read each file (a failed read degrades
to empty content), render a placeholder-indexed fragment, insert into
`partial_docs`. -/
def add_files_snippet (env : Env) (files : List String) (st : AppState) : AppState :=
  let snips := files.map (fun f => (f, generate_single_file_snippet f ((env.readFile f).getD "") 0))
  { st with partial_docs := snips.foldl (fun m e => insertDoc m e.1 e.2) st.partial_docs }

/-- `SnippetManager::update_project_tree_snippet`: regenerate the tree text
(a failed walk degrades to the empty string) and store it under the virtual
key. -/
def update_project_tree_snippet (env : Env) (st : AppState) : AppState :=
  let tree_txt := env.treeText.getD ""
  { st with partial_docs :=
      (insertDoc st.partial_docs PROJECT_TREE_VIRTUAL_PATH
        (generate_single_file_snippet PROJECT_TREE_VIRTUAL_PATH tree_txt 0)) }

/-- `SnippetManager::rebuild_and_recalc`: merge the cache, count tokens, and
only then commit both `cached_xml` and `token_count`; a tokenizer failure
aborts before either field is written. -/
def rebuild_and_recalc (env : Env) (st : AppState) : AppState × Except AppError Unit :=
  let merged := merge_all_snippets st.partial_docs
  match env.tok merged with
  | none => (st, Except.error "tokenizer failure")
  | some n => ({ st with cached_xml := merged, token_count := n }, Except.ok ())

/-- `SnippetManager::full_refresh`: clear the cache, regenerate every selected
file's fragment and the tree fragment, write them back as one batch, then
rebuild and recount. -/
def full_refresh (env : Env) (paths : List String) (st : AppState) : AppState × Except AppError Unit :=
  let st1 := { st with partial_docs := ([] : List (String × String)) }
  let snips := paths.map (fun f => (f, generate_single_file_snippet f ((env.readFile f).getD "") 0))
  let tree_snip := generate_single_file_snippet PROJECT_TREE_VIRTUAL_PATH (env.treeText.getD "") 0
  let st2 := { st1 with partial_docs :=
      (insertDoc (snips.foldl (fun m e => insertDoc m e.1 e.2) ([] : List (String × String)))
        PROJECT_TREE_VIRTUAL_PATH tree_snip) }
  rebuild_and_recalc env st2

/-! ## Command router (`command/executor.rs`) -/

/-- `is_command_valid_in_mode`, translated arm by arm. -/
def is_command_valid_in_mode (cmd : Command) (mode : ReplMode) : Bool :=
  match mode with
  | ReplMode.manual =>
    match cmd with
    | Command.add _ | Command.remove _ | Command.showContext | Command.copy
    | Command.reset | Command.help | Command.quit | Command.mode _
    | Command.resetPrompt | Command.prompt => true
    | Command.appendPromptText _ | Command.unknown _ => false
  | ReplMode.prompt =>
    match cmd with
    | Command.mode _ | Command.prompt | Command.showContext | Command.copy
    | Command.help | Command.quit | Command.appendPromptText _
    | Command.resetPrompt => true
    | Command.add _ | Command.remove _ | Command.reset | Command.unknown _ => false

end RustPrompt

namespace RustPrompt

/-- Command name used in the rejection notice (mirrors the `cmd_name` match;
only observable through output, kept for completeness). -/
def cmd_name : Command → String
  | Command.add _ => "/add"
  | Command.remove _ => "/remove"
  | Command.showContext => "/context"
  | Command.copy => "/copy"
  | Command.reset => "/reset"
  | Command.help => "/help"
  | Command.quit => "/quit"
  | Command.mode _ => "/mode"
  | Command.prompt => "/prompt"
  | Command.appendPromptText _ => "(text input)"
  | Command.resetPrompt => "/resetprompt"
  | Command.unknown _ => "unknown"

/-- The body of `execute` after the unknown-command and mode-legality gates,
one arm per `Command` variant of `executor.rs`. -/
def execute_body (cmd : Command) (env : Env) (st : AppState) : AppState × Except AppError Unit :=
  match cmd with
  | Command.add _ =>
    match env.scan with
    | Except.error e => (st, Except.error e)
    | Except.ok scanned =>
      let newSel := scanned.foldl insertPath st.selected_paths
      let st1 := { st with selected_paths := newSel, file_count := newSel.length }
      let num_added := newSel.length - st.selected_paths.length
      if num_added > 0 ∨ scanned = [] then
        rebuild_and_recalc env (update_project_tree_snippet env (add_files_snippet env scanned st1))
      else
        (st1, Except.ok ())
  | Command.remove _ =>
    match env.scan with
    | Except.error e => (st, Except.error e)
    | Except.ok scanned =>
      let newSel := scanned.foldl removePath st.selected_paths
      let newDocs := scanned.foldl removeDoc st.partial_docs
      let st1 := { st with selected_paths := newSel, partial_docs := newDocs,
                           file_count := newSel.length }
      let num_removed := st.selected_paths.length - newSel.length
      if num_removed > 0 then
        rebuild_and_recalc env (update_project_tree_snippet env st1)
      else
        (st1, Except.ok ())
  | Command.showContext => (st, Except.ok ())
  | Command.copy =>
    match full_refresh env st.selected_paths st with
    | (st', Except.error e) => (st', Except.error e)
    | (st', Except.ok _) =>
      if st'.prompt_text = "" then (st', Except.ok ())
      else
        let instruction_tag := "\n<instruction>\n" ++ (st'.prompt_text ++ "\n</instruction>")
        let final_xml :=
          match split_at_last st'.cached_xml.data "</documents>".data with
          | some (a, b) => (⟨a⟩ : String) ++ (instruction_tag ++ (⟨b⟩ : String))
          | none => st'.cached_xml ++ (instruction_tag ++ "\n</documents>")
        ({ st' with cached_xml := final_xml }, Except.ok ())
  | Command.reset =>
    ({ st with selected_paths := [], file_count := 0, token_count := 0,
               partial_docs := [], cached_xml := "", prompt_text := "" }, Except.ok ())
  | Command.help => (st, Except.ok ())
  | Command.quit => (st, Except.ok ())
  | Command.mode opt =>
    match opt with
    | none => (st, Except.ok ())
    | some m =>
      let mode_str := rustToLower m
      if mode_str = "manual" then ({ st with mode := ReplMode.manual }, Except.ok ())
      else if mode_str = "prompt" then ({ st with mode := ReplMode.prompt }, Except.ok ())
      else (st, Except.ok ())
  | Command.prompt =>
    let st1 := if st.mode = ReplMode.manual then { st with mode := ReplMode.prompt } else st
    ({ st1 with editor_mode := ReplEditorMode.multiLine }, Except.ok ())
  | Command.resetPrompt => ({ st with prompt_text := "" }, Except.ok ())
  | Command.appendPromptText line =>
    if st.mode = ReplMode.prompt then
      ({ st with prompt_text :=
          (if st.prompt_text = "" then line else st.prompt_text ++ ("\n" ++ line)) }, Except.ok ())
    else
      (st, Except.ok ())
  | Command.unknown _ => (st, Except.ok ())

/-- `execute` from `command/executor.rs`: an unknown command is reported and
dropped; a command that is illegal in the current mode is rejected with a
notice and `Ok(())`, mutating nothing; otherwise the command's arm runs. -/
def execute (cmd : Command) (env : Env) (st : AppState) : AppState × Except AppError Unit :=
  match cmd with
  | Command.unknown _ => (st, Except.ok ())
  | _ =>
    if is_command_valid_in_mode cmd st.mode then execute_body cmd env st
    else (st, Except.ok ())

/-- Runs a script of commands, each with its own collaborator results,
modelling the single-threaded dispatch loop. -/
def runScript : List (Command × Env) → AppState → AppState
  | [], st => st
  | (cmd, env) :: rest, st => runScript rest (execute cmd env st).1

/-! ## Command parser (`command/parser.rs`) -/

/-- `parse` from `command/parser.rs`.  The Rust function returns
`Result<Command, AppError>` but every arm is `Ok`, so the model returns
`Command` directly. -/
def parse (input : String) : Command :=
  if input.data.head? ≠ some '/' then Command.unknown input
  else
    let parts := split_whitespace (rustTrim input)
    let cmd_str := parts.headD ""
    let arg_str := parts[1]?
    if cmd_str = "/add" then Command.add (arg_str.getD "")
    else if cmd_str = "/remove" then Command.remove (arg_str.getD "")
    else if cmd_str = "/context" then Command.showContext
    else if cmd_str = "/copy" then Command.copy
    else if cmd_str = "/reset" then Command.reset
    else if cmd_str = "/help" then Command.help
    else if cmd_str = "/quit" then Command.quit
    else if cmd_str = "/resetprompt" then Command.resetPrompt
    else if cmd_str = "/mode" then
      match arg_str with
      | some arg => Command.mode (some arg)
      | none => Command.mode none
    else if cmd_str = "/prompt" then Command.prompt
    else Command.unknown input

/-! ## REPL engine multiline editing (`repl/engine.rs`) -/

/-- `ReplEngine::enter_multiline_mode`: switches `editor_mode` to `MultiLine`
and rebuilds the reedline editor from scratch, whose buffer therefore starts
empty; any existing `prompt_text` is only printed as a notice (the code's
comment records that reedline offers no prefill API), never loaded into the
buffer.  Returns the new state together with the fresh editor buffer. -/
def enter_multiline_mode (st : AppState) : AppState × String :=
  ({ st with editor_mode := ReplEditorMode.multiLine }, "")

/-- The multiline-commit branch of `ReplEngine::run`: on a submitted buffer,
drop the trailing `:submit` line, join the rest with real newlines, REPLACE
`prompt_text` with the result, and return to single-line mode. -/
def commit_multiline (st : AppState) (buffer : String) : AppState :=
  let lines := rust_lines buffer
  let lines2 := if (lines.getLast?.map rustTrim) = some ":submit" then lines.dropLast else lines
  { st with prompt_text := joinNl lines2, editor_mode := ReplEditorMode.singleLine }

end RustPrompt

namespace RustPrompt

set_option maxRecDepth 8192

instance {ε α : Type} [DecidableEq ε] [DecidableEq α] : DecidableEq (Except ε α) := fun a b =>
  match a, b with
  | Except.ok x, Except.ok y =>
    if h : x = y then Decidable.isTrue (by rw [h]) else Decidable.isFalse (by simp [h])
  | Except.error x, Except.error y =>
    if h : x = y then Decidable.isTrue (by rw [h]) else Decidable.isFalse (by simp [h])
  | Except.ok _, Except.error _ => Decidable.isFalse (fun hc => Except.noConfusion hc)
  | Except.error _, Except.ok _ => Decidable.isFalse (fun hc => Except.noConfusion hc)

/-! ## Tree renderer (`core/tree_builder.rs`)

A walker entry is embedded as its component path relative to the walk root
(`[]` is the root itself, depth = number of components, matching
`entry.depth()` and `path.strip_prefix(root) … components().count()`).
The walk sequence is an input: filesystem enumeration is external.  The
iteration order of the `dir_children` `HashMap` is arbitrary in Rust, so the
`last_entry_at_depth` construction is parameterized by the order in which the
groups are visited. -/

/-- A path relative to the walk root, as its list of components. -/
abbrev TPath := List String

/-- Prop form of the component-wise path order realised by `PathBuf: Ord`
(used by `children.sort()`). -/
def tpathLe (a b : TPath) : Prop := lexLe (joinNl a).data (joinNl b).data = true

instance : DecidableRel tpathLe := fun a b => instDecidableEqBool (lexLe (joinNl a).data (joinNl b).data) true

/-- The first pass of `generate_project_tree_string`: push every entry of
depth > 0 onto its parent directory's child list (`dir_children`), groups in
first-encounter order, children in walk order. -/
def addChild : List (TPath × List TPath) → TPath → TPath → List (TPath × List TPath)
  | [], par, c => [(par, [c])]
  | (q, cs) :: rest, par, c =>
    if q = par then (q, cs ++ [c]) :: rest else (q, cs) :: addChild rest par c

/-- `dir_children` built from the walk sequence. -/
def dir_children (walk : List TPath) : List (TPath × List TPath) :=
  walk.foldl (fun acc p => if p = [] then acc else addChild acc p.dropLast p) []

/-- Replace-or-append used to model `HashMap::insert` keyed by depth. -/
def upsertDepth : List (Nat × TPath) → Nat → TPath → List (Nat × TPath)
  | [], d, p => [(d, p)]
  | (d', p') :: rest, d, p =>
    if d' = d then (d, p) :: rest else (d', p') :: upsertDepth rest d p

/-- The second pass over `dir_children`: sort each directory's children and
record the sorted-last child under key `parent_depth + 1`.  The groups are
visited in the order of the given list (the Rust `HashMap` iteration order is
arbitrary). -/
def last_entry_at_depth (groups : List (TPath × List TPath)) : List (Nat × TPath) :=
  groups.foldl
    (fun acc e =>
      match (List.insertionSort tpathLe e.2).getLast? with
      | some lastChild => upsertDepth acc (e.1.length + 1) lastChild
      | none => acc)
    []

/-- One rendered line of the output pass: the per-ancestor prefix followed by
the branch glyph and the entry's file name. -/
def renderLine (m : List (Nat × TPath)) (p : TPath) : String :=
  let depth := p.length
  let pre := String.join (((List.range (depth - 1)).map (fun j =>
    if List.lookup (j + 1) m = some (p.take (j + 1)) then "    " else "│   ")))
  let branch := if List.lookup depth m = some p then "└── " else "├── "
  pre ++ (branch ++ (p.getLastD ""))

/-- The rendered tree lines for a given group-visit order: root name first,
then one line per walked entry of depth > 0, in walk order (the Rust code
joins these lines with newlines; the claims are about individual lines). -/
def tree_lines (rootName : String) (walk : List TPath) (groups : List (TPath × List TPath)) :
    List String :=
  rootName :: (walk.filter (fun p => p ≠ [])).map (renderLine (last_entry_at_depth groups))

/-- `generate_project_tree_string`, with the group-visit order fixed to the
first-encounter order of `dir_children` (one possible `HashMap` order). -/
def generate_project_tree_string (rootName : String) (walk : List TPath) : List String :=
  tree_lines rootName walk (dir_children walk)

/-- The spec's notion from §4.2: an entry is "last" iff it is the final
element of its own parent directory's sorted child list. -/
def isLastOfParent (walk : List TPath) (p : TPath) : Prop :=
  (List.insertionSort tpathLe ((List.lookup p.dropLast (dir_children walk)).getD [])).getLast?
    = some p

instance (walk : List TPath) (p : TPath) : Decidable (isLastOfParent walk p) := by
  unfold isLastOfParent; infer_instance

/-- The branch glyph an entry receives under a given group-visit order. -/
def branchOf (groups : List (TPath × List TPath)) (p : TPath) : String :=
  if List.lookup p.length (last_entry_at_depth groups) = some p then "└── " else "├── "

end RustPrompt

namespace RustPrompt

set_option maxRecDepth 16384

/-- A sample collaborator environment: empty scan, empty reads, tree text
`"T"`, and a character-count tokenizer. -/
def envLen : Env where
  scan := Except.ok []
  readFile := fun _ => some ""
  treeText := some "T"
  tok := fun s => some s.length

/-- A sample environment whose tokenizer always fails. -/
def envFail : Env where
  scan := Except.ok []
  readFile := fun _ => some ""
  treeText := some "T"
  tok := fun _ => none

/-! ## C3: command legality allow-list -/

/-- C3 counterexample: the claim says the instruction-view/compose command and
the clear-instruction command are legal ONLY in Prompt mode, but
`is_command_valid_in_mode` accepts both `/prompt` and `/resetprompt` in Manual
mode as well (the code marks them "allowed in Manual mode" explicitly). -/
theorem c3_counterexample :
    is_command_valid_in_mode Command.prompt ReplMode.manual = true ∧
    is_command_valid_in_mode Command.resetPrompt ReplMode.manual = true := by
  constructor <;> rfl

/-- C3 (amended): the router's legality predicate is the per-mode allow-list
in which add/remove/reset are Manual-only, free-text instruction append is
Prompt-only, unknown input is legal nowhere, and every other command —
including the instruction-compose command `/prompt` and the clear-instruction
command `/resetprompt` — is legal in both modes. -/
theorem c3_allow_list (cmd : Command) (mode : ReplMode) :
    is_command_valid_in_mode cmd mode = true ↔
      (match cmd with
       | Command.add _ | Command.remove _ | Command.reset => mode = ReplMode.manual
       | Command.appendPromptText _ => mode = ReplMode.prompt
       | Command.unknown _ => False
       | _ => True) := by
  cases cmd <;> cases mode <;> simp [is_command_valid_in_mode]

/-! ## C10: parser argument handling -/

/-- C10: `parse` tokenizes the trimmed line on whitespace and hands `/add` and
`/remove` only the first token after the command name; every later token is
discarded, and a missing argument becomes the empty path. -/
theorem c10_parse_first_token_only :
    (∀ (input : String) (args : List String), input.data.head? = some '/' →
        split_whitespace (rustTrim input) = "/add" :: args →
        parse input = Command.add (args.headD "")) ∧
    (∀ (input : String) (args : List String), input.data.head? = some '/' →
        split_whitespace (rustTrim input) = "/remove" :: args →
        parse input = Command.remove (args.headD "")) ∧
    parse "/add" = Command.add "" ∧
    parse "/remove" = Command.remove "" ∧
    parse "/add my file.txt" = Command.add "my" := by
  refine ⟨?_, ?_, by decide, by decide, by decide⟩ <;>
    · intro input args h1 h2
      unfold parse
      rw [h2]
      simp [h1]
      cases args <;> simp

/-- C10 witness: the general clauses applied to the concrete line
`"/add my file.txt"`. -/
theorem c10_witness : parse "/add my file.txt" = Command.add "my" :=
  c10_parse_first_token_only.1 "/add my file.txt" ["my", "file.txt"] (by decide) (by decide)

/-! ## C6: illegal commands mutate nothing and return success -/

/-- C6: a command that is not in the active mode's allow-list is dropped with
a notice: `execute` returns the state completely unchanged together with
`Ok(())`. -/
theorem c6_illegal_command_frame (cmd : Command) (env : Env) (st : AppState)
    (h : is_command_valid_in_mode cmd st.mode = false) :
    execute cmd env st = (st, Except.ok ()) := by
  cases cmd <;> simp [execute, h]

/-- C6 witness: `/add` issued in Prompt mode leaves the state untouched. -/
theorem c6_witness :
    execute (Command.add "x") envLen { AppState.new with mode := ReplMode.prompt }
      = ({ AppState.new with mode := ReplMode.prompt }, Except.ok ()) :=
  c6_illegal_command_frame (Command.add "x") envLen
    { AppState.new with mode := ReplMode.prompt } (by decide)

/-! ## C5: multiline entry does not pre-seed the buffer -/

/-- The session state of C5's scenario: Prompt mode with a pending
instruction. -/
def st5 : AppState := { AppState.new with mode := ReplMode.prompt, prompt_text := "old" }

/-- C5 counterexample: entering multiline mode hands back an EMPTY capture
buffer, not one pre-seeded with the pending instruction `"old"`, and
committing without edits (submitting only the `:submit` sentinel) leaves the
pending instruction equal to `""`, not to its previous value. -/
theorem c5_counterexample :
    (enter_multiline_mode st5).2 = "" ∧
    (commit_multiline (enter_multiline_mode st5).1 ":submit").prompt_text = "" ∧
    st5.prompt_text = "old" := by
  refine ⟨rfl, by decide, rfl⟩

/-- C5 (amended): the instruction-compose command issued in Prompt mode
switches the editor to MultiLine, but the fresh capture buffer starts empty
(the existing pending text is only printed as a notice), so committing without
edits replaces the pending instruction with the empty string rather than
preserving it. -/
theorem c5_multiline_empty_buffer (st : AppState) :
    enter_multiline_mode st = ({ st with editor_mode := ReplEditorMode.multiLine }, "") ∧
    commit_multiline { st with editor_mode := ReplEditorMode.multiLine } ":submit"
      = { st with editor_mode := ReplEditorMode.singleLine, prompt_text := "" } :=
  ⟨rfl, rfl⟩

/-! ## C4: the tree renderer's "last entry" bookkeeping -/

/-- The failing walk: a root with two sibling directories `a` and `b`, each
containing files `x` and `y` (walk order parents-first). -/
def bugWalk : List TPath := [["a"], ["a", "x"], ["a", "y"], ["b"], ["b", "x"], ["b", "y"]]

/-- C4: `last_entry_at_depth` keeps ONE entry per depth, not one per parent
directory, so with two sibling directories only one of the two per-parent last
children can receive the corner glyph.  Concretely: `a/y` and `b/y` are both
the final elements of their own parents' sorted child lists, yet the rendered
tree gives `a/y` the tee glyph, and under EVERY possible `HashMap` iteration
order of `dir_children` at least one of the two is mis-rendered. -/
theorem c4_last_entry_collision :
    generate_project_tree_string "r" bugWalk
      = ["r", "├── a", "│   ├── x", "│   ├── y", "└── b", "    ├── x", "    └── y"] ∧
    (isLastOfParent bugWalk ["a", "y"] ∧ isLastOfParent bugWalk ["b", "y"]) ∧
    ((dir_children bugWalk).permutations'.all
      (fun g => !(branchOf g ["a", "y"] = "└── " ∧ branchOf g ["b", "y"] = "└── "))) = true := by
  refine ⟨by decide, by decide, by decide⟩

end RustPrompt

namespace RustPrompt

theorem rebuild_preserves (env : Env) (st : AppState) :
    ((rebuild_and_recalc env st).1).selected_paths = st.selected_paths ∧
    ((rebuild_and_recalc env st).1).file_count = st.file_count ∧
    ((rebuild_and_recalc env st).1).mode = st.mode ∧
    ((rebuild_and_recalc env st).1).prompt_text = st.prompt_text ∧
    ((rebuild_and_recalc env st).1).partial_docs = st.partial_docs ∧
    ((rebuild_and_recalc env st).1).editor_mode = st.editor_mode := by
  simp only [rebuild_and_recalc]
  split <;> simp

theorem rebuild_consistency (env : Env) (st : AppState)
    (h : env.tok st.cached_xml = some st.token_count) :
    env.tok ((rebuild_and_recalc env st).1).cached_xml
      = some ((rebuild_and_recalc env st).1).token_count := by
  simp only [rebuild_and_recalc]
  cases h2 : env.tok (merge_all_snippets st.partial_docs) with
  | none => simpa using h
  | some n => simpa using h2

theorem rebuild_ok_consistency (env : Env) (st st' : AppState)
    (h : rebuild_and_recalc env st = (st', Except.ok ())) :
    st'.cached_xml = merge_all_snippets st.partial_docs ∧
    env.tok st'.cached_xml = some st'.token_count := by
  revert h
  simp only [rebuild_and_recalc]
  cases h2 : env.tok (merge_all_snippets st.partial_docs) with
  | none => intro h; cases h
  | some n =>
    intro h
    cases h
    exact ⟨rfl, h2⟩

theorem rebuild_err (env : Env) (st : AppState)
    (h : env.tok (merge_all_snippets st.partial_docs) = none) :
    rebuild_and_recalc env st = (st, Except.error "tokenizer failure") := by
  simp only [rebuild_and_recalc, h]

theorem full_refresh_eq (env : Env) (paths : List String) (st : AppState) :
    full_refresh env paths st =
      rebuild_and_recalc env { st with partial_docs :=
        (insertDoc ((paths.map (fun f => (f, generate_single_file_snippet f ((env.readFile f).getD "") 0))).foldl
            (fun m e => insertDoc m e.1 e.2) ([] : List (String × String)))
          PROJECT_TREE_VIRTUAL_PATH
          (generate_single_file_snippet PROJECT_TREE_VIRTUAL_PATH (env.treeText.getD "") 0)) } := rfl

/-- The `/copy` arm never touches the selection, counts of files, mode,
pending instruction or editor mode. -/
theorem copy_fields (env : Env) (st : AppState) :
    (execute Command.copy env st).1.selected_paths = st.selected_paths ∧
    (execute Command.copy env st).1.file_count = st.file_count ∧
    (execute Command.copy env st).1.mode = st.mode ∧
    (execute Command.copy env st).1.prompt_text = st.prompt_text ∧
    (execute Command.copy env st).1.editor_mode = st.editor_mode := by
  simp only [execute]
  split
  · simp only [execute_body]
    split
    · rename_i st' e heq
      have hst' : (full_refresh env st.selected_paths st).1 = st' := by rw [heq]
      have hfields :
          st'.selected_paths = st.selected_paths ∧ st'.file_count = st.file_count ∧
          st'.mode = st.mode ∧ st'.prompt_text = st.prompt_text ∧
          st'.editor_mode = st.editor_mode := by
        rw [← hst', full_refresh_eq]
        exact ⟨(rebuild_preserves _ _).1, (rebuild_preserves _ _).2.1,
          (rebuild_preserves _ _).2.2.1, (rebuild_preserves _ _).2.2.2.1,
          (rebuild_preserves _ _).2.2.2.2.2⟩
      exact hfields
    · rename_i st' u heq
      have hst' : (full_refresh env st.selected_paths st).1 = st' := by rw [heq]
      have hfields :
          st'.selected_paths = st.selected_paths ∧ st'.file_count = st.file_count ∧
          st'.mode = st.mode ∧ st'.prompt_text = st.prompt_text ∧
          st'.editor_mode = st.editor_mode := by
        rw [← hst', full_refresh_eq]
        exact ⟨(rebuild_preserves _ _).1, (rebuild_preserves _ _).2.1,
          (rebuild_preserves _ _).2.2.1, (rebuild_preserves _ _).2.2.2.1,
          (rebuild_preserves _ _).2.2.2.2.2⟩
      split
      · exact hfields
      · exact hfields
  · exact ⟨rfl, rfl, rfl, rfl, rfl⟩

theorem insertPath_nodup (l : List String) (p : String) (h : l.Nodup) :
    (insertPath l p).Nodup := by
  unfold insertPath
  split
  · exact h
  · next hnm => simp [List.nodup_append, h, hnm]

theorem foldl_insertPath_nodup (ps : List String) (l : List String) (h : l.Nodup) :
    (ps.foldl insertPath l).Nodup := by
  induction ps generalizing l with
  | nil => exact h
  | cons p rest ih => exact ih _ (insertPath_nodup l p h)

theorem foldl_removePath_nodup (ps : List String) (l : List String) (h : l.Nodup) :
    (ps.foldl removePath l).Nodup := by
  induction ps generalizing l with
  | nil => exact h
  | cons p rest ih => exact ih _ (List.Nodup.filter _ h)

/-- The invariant of C9: a duplicate-free selection whose recorded count is
its size. -/
def inv9 (st : AppState) : Prop :=
  st.selected_paths.Nodup ∧ st.file_count = st.selected_paths.length

theorem execute_inv9 (cmd : Command) (env : Env) (st : AppState) (h : inv9 st) :
    inv9 (execute cmd env st).1 := by
  obtain ⟨hnd, hfc⟩ := h
  cases cmd with
  | add p =>
    simp only [execute]
    split
    · simp only [execute_body]
      cases hs : env.scan with
      | error e => exact ⟨hnd, hfc⟩
      | ok scanned =>
        simp only []
        split
        · refine ⟨?_, ?_⟩
          · rw [(rebuild_preserves _ _).1]
            exact foldl_insertPath_nodup scanned st.selected_paths hnd
          · rw [(rebuild_preserves _ _).1, (rebuild_preserves _ _).2.1]
            rfl
        · exact ⟨foldl_insertPath_nodup scanned st.selected_paths hnd, rfl⟩
    · exact ⟨hnd, hfc⟩
  | remove p =>
    simp only [execute]
    split
    · simp only [execute_body]
      cases hs : env.scan with
      | error e => exact ⟨hnd, hfc⟩
      | ok scanned =>
        simp only []
        split
        · refine ⟨?_, ?_⟩
          · rw [(rebuild_preserves _ _).1]
            exact foldl_removePath_nodup scanned st.selected_paths hnd
          · rw [(rebuild_preserves _ _).1, (rebuild_preserves _ _).2.1]
            rfl
        · exact ⟨foldl_removePath_nodup scanned st.selected_paths hnd, rfl⟩
    · exact ⟨hnd, hfc⟩
  | copy =>
    exact ⟨(copy_fields env st).1 ▸ hnd, by
      rw [(copy_fields env st).1, (copy_fields env st).2.1]; exact hfc⟩
  | reset =>
    simp only [execute]
    split
    · exact ⟨List.nodup_nil, rfl⟩
    · exact ⟨hnd, hfc⟩
  | mode opt =>
    simp only [execute]
    split
    · cases opt with
      | none => exact ⟨hnd, hfc⟩
      | some m =>
        simp only [execute_body]
        split
        · exact ⟨hnd, hfc⟩
        · split
          · exact ⟨hnd, hfc⟩
          · exact ⟨hnd, hfc⟩
    · exact ⟨hnd, hfc⟩
  | prompt =>
    simp only [execute]
    split
    · simp only [execute_body]
      split
      · exact ⟨hnd, hfc⟩
      · exact ⟨hnd, hfc⟩
    · exact ⟨hnd, hfc⟩
  | appendPromptText s =>
    simp only [execute]
    split
    · simp only [execute_body]
      split
      · exact ⟨hnd, hfc⟩
      · exact ⟨hnd, hfc⟩
    · exact ⟨hnd, hfc⟩
  | resetPrompt =>
    simp only [execute]
    split
    · exact ⟨hnd, hfc⟩
    · exact ⟨hnd, hfc⟩
  | showContext =>
    simp only [execute]
    split
    · exact ⟨hnd, hfc⟩
    · exact ⟨hnd, hfc⟩
  | help =>
    simp only [execute]
    split
    · exact ⟨hnd, hfc⟩
    · exact ⟨hnd, hfc⟩
  | quit =>
    simp only [execute]
    split
    · exact ⟨hnd, hfc⟩
    · exact ⟨hnd, hfc⟩
  | unknown s => exact ⟨hnd, hfc⟩

end RustPrompt

namespace RustPrompt

/-- C9: starting from `AppState::new`, after any script of commands the
recorded `file_count` equals the cardinality of the selection set (and the
selection list is duplicate-free, so list length, set cardinality and
`HashSet::len` agree). -/
theorem c9_file_count_invariant (script : List (Command × Env)) :
    (runScript script AppState.new).selected_paths.Nodup ∧
    (runScript script AppState.new).file_count
      = (runScript script AppState.new).selected_paths.toFinset.card := by
  have key : ∀ (s : List (Command × Env)) (st : AppState), inv9 st → inv9 (runScript s st) := by
    intro s
    induction s with
    | nil => intro st h; exact h
    | cons x rest ih =>
      intro st h
      exact ih _ (execute_inv9 x.1 x.2 st h)
  have h := key script AppState.new ⟨List.nodup_nil, rfl⟩
  exact ⟨h.1, by rw [List.toFinset_card_of_nodup h.1]; exact h.2⟩

/-! ## C8 helper lemmas -/

theorem insertPath_toFinset (l : List String) (p : String) :
    (insertPath l p).toFinset = insert p l.toFinset := by
  unfold insertPath
  split
  · next hm => rw [Finset.insert_eq_self.mpr (List.mem_toFinset.mpr hm)]
  · rw [List.toFinset_append, Finset.union_comm]
    simp [Finset.insert_eq]

theorem foldl_insertPath_toFinset (ps : List String) (l : List String) :
    (ps.foldl insertPath l).toFinset = l.toFinset ∪ ps.toFinset := by
  induction ps generalizing l with
  | nil => simp
  | cons p rest ih =>
    rw [List.foldl_cons, ih, insertPath_toFinset]
    ext x
    simp

theorem removePath_toFinset (l : List String) (p : String) :
    (removePath l p).toFinset = l.toFinset \ {p} := by
  ext x
  simp [removePath]

theorem foldl_removePath_toFinset (ps : List String) (l : List String) :
    (ps.foldl removePath l).toFinset = l.toFinset \ ps.toFinset := by
  induction ps generalizing l with
  | nil => simp
  | cons p rest ih =>
    rw [List.foldl_cons, ih, removePath_toFinset]
    ext x
    simp
    tauto

theorem foldl_insertPath_of_mem (ps : List String) (l : List String)
    (h : ∀ x ∈ ps, x ∈ l) : ps.foldl insertPath l = l := by
  induction ps with
  | nil => rfl
  | cons p rest ih =>
    rw [List.foldl_cons]
    have hp : insertPath l p = l := by
      unfold insertPath
      rw [if_pos (h p (List.mem_cons_self p rest))]
    rw [hp]
    exact ih (fun x hx => h x (List.mem_cons_of_mem p hx))

/-- C8: executed in Manual mode, `/add` makes the selection the set union of
the previous selection with the scanned file list and `/remove` makes it the
set difference; re-adding paths that are all already present (with a coherent
`file_count`) is a complete no-op on the session state. -/
theorem c8_add_remove_set_semantics :
    (∀ (p : String) (env : Env) (st : AppState) (scanned : List String),
        st.mode = ReplMode.manual → env.scan = Except.ok scanned →
        (execute (Command.add p) env st).1.selected_paths.toFinset
          = st.selected_paths.toFinset ∪ scanned.toFinset) ∧
    (∀ (p : String) (env : Env) (st : AppState) (scanned : List String),
        st.mode = ReplMode.manual → env.scan = Except.ok scanned →
        (execute (Command.remove p) env st).1.selected_paths.toFinset
          = st.selected_paths.toFinset \ scanned.toFinset) ∧
    (∀ (p : String) (env : Env) (st : AppState) (scanned : List String),
        st.mode = ReplMode.manual → env.scan = Except.ok scanned →
        scanned ≠ [] → (∀ x ∈ scanned, x ∈ st.selected_paths) →
        st.file_count = st.selected_paths.length →
        execute (Command.add p) env st = (st, Except.ok ())) := by
  refine ⟨?_, ?_, ?_⟩
  · intro p env st scanned hmode hscan
    simp only [execute, hmode, is_command_valid_in_mode, if_true]
    simp only [execute_body, hscan]
    split
    · rw [(rebuild_preserves _ _).1]
      exact foldl_insertPath_toFinset scanned st.selected_paths
    · exact foldl_insertPath_toFinset scanned st.selected_paths
  · intro p env st scanned hmode hscan
    simp only [execute, hmode, is_command_valid_in_mode, if_true]
    simp only [execute_body, hscan]
    split
    · rw [(rebuild_preserves _ _).1]
      exact foldl_removePath_toFinset scanned st.selected_paths
    · exact foldl_removePath_toFinset scanned st.selected_paths
  · intro p env st scanned hmode hscan hne hsub hfc
    simp only [execute, hmode, is_command_valid_in_mode, if_true]
    simp only [execute_body, hscan]
    rw [foldl_insertPath_of_mem scanned st.selected_paths hsub]
    rw [if_neg]
    · rw [← hfc]
    · simp [hne]

/-- C8 witness: re-adding the already-selected path `"a"` leaves the whole
state unchanged. -/
theorem c8_witness :
    execute (Command.add "a")
      { scan := Except.ok ["a"], readFile := fun _ => some "", treeText := some "T",
        tok := fun s => some s.length }
      { AppState.new with selected_paths := ["a"], file_count := 1 }
      = ({ AppState.new with selected_paths := ["a"], file_count := 1 }, Except.ok ()) :=
  c8_add_remove_set_semantics.2.2 "a" _ _ ["a"] rfl rfl (by decide) (by decide) rfl

end RustPrompt

namespace RustPrompt

set_option maxRecDepth 65536

/-- C7: when the tokenizer backend fails, any command that reaches the rebuild
step returns an error and the previously cached document text and token count
are retained; `/add`, `/remove` and `/copy` never commit a partial update of
the merged-document fields. -/
theorem c7_tokenizer_failure_no_partial_update (env : Env) (st : AppState)
    (htok : ∀ s, env.tok s = none) :
    (∀ p, (execute (Command.add p) env st).1.cached_xml = st.cached_xml ∧
          (execute (Command.add p) env st).1.token_count = st.token_count) ∧
    (∀ p, (execute (Command.remove p) env st).1.cached_xml = st.cached_xml ∧
          (execute (Command.remove p) env st).1.token_count = st.token_count) ∧
    ((execute Command.copy env st).1.cached_xml = st.cached_xml ∧
     (execute Command.copy env st).1.token_count = st.token_count ∧
     (execute Command.copy env st).2 = Except.error "tokenizer failure") ∧
    (∀ p, st.mode = ReplMode.manual → env.scan = Except.ok [] →
        (execute (Command.add p) env st).2 = Except.error "tokenizer failure") := by
  have hvcopy : is_command_valid_in_mode Command.copy st.mode = true := by
    cases st.mode <;> rfl
  refine ⟨?_, ?_, ?_, ?_⟩
  · intro p
    simp only [execute]
    split
    · simp only [execute_body]
      cases hs : env.scan with
      | error e => exact ⟨rfl, rfl⟩
      | ok scanned =>
        simp only []
        split
        · rw [rebuild_err env _ (htok _)]
          exact ⟨rfl, rfl⟩
        · exact ⟨rfl, rfl⟩
    · exact ⟨rfl, rfl⟩
  · intro p
    simp only [execute]
    split
    · simp only [execute_body]
      cases hs : env.scan with
      | error e => exact ⟨rfl, rfl⟩
      | ok scanned =>
        simp only []
        split
        · rw [rebuild_err env _ (htok _)]
          exact ⟨rfl, rfl⟩
        · exact ⟨rfl, rfl⟩
    · exact ⟨rfl, rfl⟩
  · simp only [execute]
    rw [if_pos hvcopy]
    simp only [execute_body, full_refresh_eq]
    rw [rebuild_err env _ (htok _)]
    exact ⟨rfl, rfl, rfl⟩
  · intro p hmode hscan
    simp only [execute, hmode, is_command_valid_in_mode, if_true]
    simp only [execute_body, hscan]
    rw [if_pos (Or.inr trivial)]
    rw [rebuild_err env _ (htok _)]

/-- C7 witness: with an always-failing tokenizer, `/copy` on the initial state
errors out and retains the (empty) cached document and zero token count. -/
theorem c7_witness :
    (execute Command.copy envFail AppState.new).1.cached_xml = AppState.new.cached_xml ∧
    (execute Command.copy envFail AppState.new).2 = Except.error "tokenizer failure" :=
  ⟨(c7_tokenizer_failure_no_partial_update envFail AppState.new (fun _ => rfl)).2.2.1.1,
   (c7_tokenizer_failure_no_partial_update envFail AppState.new (fun _ => rfl)).2.2.1.2.2⟩

/-- C2 counterexample: switch to Prompt mode, append the instruction `"hi"`,
then `/copy`; the Copy arm appends the `<instruction>` block to `cached_xml`
WITHOUT recounting, so afterwards the stored token count is not the
tokenizer's count of the cached document. -/
theorem c2_counterexample :
    envLen.tok (runScript
        [(Command.mode (some "prompt"), envLen), (Command.appendPromptText "hi", envLen),
         (Command.copy, envLen)] AppState.new).cached_xml
      ≠ some (runScript
        [(Command.mode (some "prompt"), envLen), (Command.appendPromptText "hi", envLen),
         (Command.copy, envLen)] AppState.new).token_count := by decide

/-- C2 (amended): `rebuild_and_recalc` always commits `cached_xml` and
`token_count` together, so immediately after any successful rebuild the stored
count is the tokenizer's count of the cached text; moreover every command
preserves this consistency EXCEPT `/copy` with a non-empty pending
instruction, whose instruction-block append to `cached_xml` is not followed by
a recount. -/
theorem c2_token_count_consistency :
    (∀ (env : Env) (st st' : AppState), rebuild_and_recalc env st = (st', Except.ok ()) →
        st'.cached_xml = merge_all_snippets st.partial_docs ∧
        env.tok st'.cached_xml = some st'.token_count) ∧
    (∀ (env : Env) (cmd : Command) (st : AppState),
        env.tok "" = some 0 →
        env.tok st.cached_xml = some st.token_count →
        (cmd = Command.copy → st.prompt_text = "") →
        env.tok (execute cmd env st).1.cached_xml
          = some (execute cmd env st).1.token_count) := by
  refine ⟨fun env st st' h => rebuild_ok_consistency env st st' h, ?_⟩
  intro env cmd st h0 h hcopy
  cases cmd with
  | add p =>
    simp only [execute]
    split
    · simp only [execute_body]
      cases hs : env.scan with
      | error e => exact h
      | ok scanned =>
        simp only []
        split
        · exact rebuild_consistency env _ h
        · exact h
    · exact h
  | remove p =>
    simp only [execute]
    split
    · simp only [execute_body]
      cases hs : env.scan with
      | error e => exact h
      | ok scanned =>
        simp only []
        split
        · exact rebuild_consistency env _ h
        · exact h
    · exact h
  | copy =>
    have hp : st.prompt_text = "" := hcopy rfl
    have hvcopy : is_command_valid_in_mode Command.copy st.mode = true := by
      cases st.mode <;> rfl
    simp only [execute]
    rw [if_pos hvcopy]
    simp only [execute_body]
    split
    · rename_i st' e heq
      have hst' : (full_refresh env st.selected_paths st).1 = st' := by rw [heq]
      rw [← hst', full_refresh_eq]
      exact rebuild_consistency env _ h
    · rename_i st' u heq
      have hst' : (full_refresh env st.selected_paths st).1 = st' := by rw [heq]
      split
      · rw [← hst', full_refresh_eq]
        exact rebuild_consistency env _ h
      · rename_i hpne
        exfalso
        apply hpne
        rw [← hst', full_refresh_eq, (rebuild_preserves _ _).2.2.2.1]
        exact hp
  | reset =>
    simp only [execute]
    split
    · exact h0
    · exact h
  | mode opt =>
    simp only [execute]
    split
    · cases opt with
      | none => exact h
      | some m =>
        simp only [execute_body]
        split
        · exact h
        · split
          · exact h
          · exact h
    · exact h
  | prompt =>
    simp only [execute]
    split
    · simp only [execute_body]
      split
      · exact h
      · exact h
    · exact h
  | appendPromptText s =>
    simp only [execute]
    split
    · simp only [execute_body]
      split
      · exact h
      · exact h
    · exact h
  | resetPrompt =>
    simp only [execute]
    split
    · exact h
    · exact h
  | showContext =>
    simp only [execute]
    split
    · exact h
    · exact h
  | help =>
    simp only [execute]
    split
    · exact h
    · exact h
  | quit =>
    simp only [execute]
    split
    · exact h
    · exact h
  | unknown s => exact h

/-- C2 witness: the preservation clause applied to `/reset` on the initial
state with the character-count tokenizer. -/
theorem c2_witness :
    envLen.tok (execute Command.reset envLen AppState.new).1.cached_xml
      = some (execute Command.reset envLen AppState.new).1.token_count :=
  c2_token_count_consistency.2 envLen Command.reset AppState.new rfl rfl (fun _ => rfl)

end RustPrompt

namespace RustPrompt

set_option maxRecDepth 65536

/-! ## C1 lemma stack: the merge output is a pure, ordered function of the
cache contents -/

/-- The index substitution applied to a placeholder-indexed fragment is the
fragment re-rendered at the new index (the substitution stops at the closing
quote of the placeholder, before any user-controlled text). -/
theorem set_fragment_index_gen (p c : String) (n : Nat) :
    set_fragment_index (generate_single_file_snippet p c 0) n
      = generate_single_file_snippet p c n := rfl

theorem lexLe_total : ∀ a b : List Char, lexLe a b = true ∨ lexLe b a = true := by
  intro a
  induction a with
  | nil => intro b; left; rfl
  | cons x xs ih =>
    intro b
    cases b with
    | nil => right; rfl
    | cons y ys =>
      by_cases hxy : x = y
      · subst hxy
        simpa [lexLe] using ih ys
      · rcases lt_trichotomy x y with h | h | h
        · left; simp [lexLe, hxy, h]
        · exact absurd h hxy
        · right; simp [lexLe, Ne.symm hxy, h]

theorem lexLe_trans :
    ∀ a b c : List Char, lexLe a b = true → lexLe b c = true → lexLe a c = true := by
  intro a
  induction a with
  | nil => intro b c _ _; rfl
  | cons x xs ih =>
    intro b c hab hbc
    cases b with
    | nil => simp [lexLe] at hab
    | cons y ys =>
      cases c with
      | nil => simp [lexLe] at hbc
      | cons z zs =>
        simp only [lexLe] at hab hbc ⊢
        by_cases hxy : x = y
        · subst hxy
          simp only [if_pos rfl] at hab
          by_cases hyz : x = z
          · subst hyz
            simp only [if_pos rfl] at hbc ⊢
            exact ih ys zs hab hbc
          · simp only [if_neg hyz] at hbc ⊢
            exact hbc
        · simp only [if_neg hxy] at hab
          have hxylt : x < y := of_decide_eq_true hab
          by_cases hyz : y = z
          · have hxz : x ≠ z := by rw [← hyz]; exact hxy
            have hxzlt : x < z := by rw [← hyz]; exact hxylt
            simp only [if_neg hxz]
            exact decide_eq_true hxzlt
          · simp only [if_neg hyz] at hbc
            have hyzlt : y < z := of_decide_eq_true hbc
            have hxzlt : x < z := lt_trans hxylt hyzlt
            have hxz : x ≠ z := ne_of_lt hxzlt
            simp only [if_neg hxz]
            exact decide_eq_true hxzlt

theorem lexLe_antisymm :
    ∀ a b : List Char, lexLe a b = true → lexLe b a = true → a = b := by
  intro a
  induction a with
  | nil =>
    intro b _ hba
    cases b with
    | nil => rfl
    | cons y ys => simp [lexLe] at hba
  | cons x xs ih =>
    intro b hab hba
    cases b with
    | nil => simp [lexLe] at hab
    | cons y ys =>
      simp only [lexLe] at hab hba
      by_cases hxy : x = y
      · subst hxy
        simp only [if_pos rfl] at hab hba
        rw [ih ys hab hba]
      · simp only [if_neg hxy, if_neg (Ne.symm hxy)] at hab hba
        exact absurd (of_decide_eq_true hba) (lt_asymm (of_decide_eq_true hab))

/-- Strings with equal character data are equal. -/
theorem string_data_inj (s t : String) (h : s.data = t.data) : s = t := by
  cases s
  cases t
  cases h
  rfl

theorem pathLe_antisymm (a b : String) (hab : pathLe a b = true) (hba : pathLe b a = true) :
    a = b :=
  string_data_inj a b (lexLe_antisymm a.data b.data hab hba)

instance : IsTotal String pLe := ⟨fun a b => lexLe_total a.data b.data⟩

instance : IsTrans String pLe := ⟨fun a b c => lexLe_trans a.data b.data c.data⟩

instance : IsTotal (String × String) entryLe := ⟨fun a b => lexLe_total a.1.data b.1.data⟩

instance : IsTrans (String × String) entryLe :=
  ⟨fun a b c => lexLe_trans a.1.data b.1.data c.1.data⟩

/-- `HashMap`-style lookup is order-independent when the keys are unique. -/
theorem lookup_perm (k : String) (l₁ l₂ : List (String × String)) (h : l₁.Perm l₂)
    (nd : (l₁.map Prod.fst).Nodup) : List.lookup k l₁ = List.lookup k l₂ := by
  induction h with
  | nil => rfl
  | cons x hrest ih =>
    simp only [List.lookup]
    cases hbeq : k == x.1 with
    | true => rfl
    | false =>
      simp only [List.map_cons, List.nodup_cons] at nd
      exact ih nd.2
  | swap x y l =>
    simp only [List.map_cons, List.nodup_cons, List.mem_cons, List.mem_map] at nd
    have hne : y.1 ≠ x.1 := fun hc => nd.1 (Or.inl hc)
    simp only [List.lookup]
    cases hky : k == y.1 with
    | true =>
      have : k = y.1 := eq_of_beq hky
      have hkx : (k == x.1) = false := by
        rw [this]
        exact beq_eq_false_iff_ne.mpr hne
      rw [hkx]
    | false => rfl
  | trans h12 h23 ih12 ih23 =>
    exact (ih12 nd).trans (ih23 ((h12.map Prod.fst).nodup nd))

/-- Two key-sorted association lists with unique keys that are permutations of
each other are equal. -/
theorem sorted_unique (l₁ l₂ : List (String × String)) (h : l₁.Perm l₂)
    (nd : (l₁.map Prod.fst).Nodup) (s₁ : l₁.Pairwise entryLe) (s₂ : l₂.Pairwise entryLe) :
    l₁ = l₂ := by
  haveI : IsAntisymm (String × String) (fun a b => entryLe a b ∧ a.1 ≠ b.1) :=
    ⟨fun a b hab hba => absurd (pathLe_antisymm a.1 b.1 hab.1 hba.1) hab.2⟩
  have nd₂ : (l₂.map Prod.fst).Nodup := (h.map Prod.fst).nodup nd
  have p₁ : l₁.Pairwise (fun a b => a.1 ≠ b.1) := List.pairwise_map.mp nd
  have p₂ : l₂.Pairwise (fun a b => a.1 ≠ b.1) := List.pairwise_map.mp nd₂
  exact List.eq_of_perm_of_sorted h (s₁.and p₁) (s₂.and p₂)

/-- The merge's sort-by-path step is insensitive to the cache's internal
order. -/
theorem insertionSort_perm_eq (l₁ l₂ : List (String × String)) (h : l₁.Perm l₂)
    (nd : (l₁.map Prod.fst).Nodup) :
    List.insertionSort entryLe l₁ = List.insertionSort entryLe l₂ := by
  apply sorted_unique
  · exact (List.perm_insertionSort entryLe l₁).trans
      (h.trans (List.perm_insertionSort entryLe l₂).symm)
  · exact (((List.perm_insertionSort entryLe l₁).map Prod.fst).symm).nodup nd
  · exact List.sorted_insertionSort entryLe l₁
  · exact List.sorted_insertionSort entryLe l₂

/-- Sorting key-tagged entries is the same as sorting the keys and re-tagging. -/
theorem insertionSort_map (g : String → String × String) (hg : ∀ p, (g p).1 = p)
    (rs : List String) (nd : rs.Nodup) :
    List.insertionSort entryLe (rs.map g) = (List.insertionSort pLe rs).map g := by
  have hkeys : (rs.map g).map Prod.fst = rs := by
    rw [List.map_map]
    exact List.map_congr_left (fun p _ => hg p) |>.trans (List.map_id rs)
  apply sorted_unique
  · exact (List.perm_insertionSort entryLe (rs.map g)).trans
      ((List.perm_insertionSort pLe rs).map g).symm
  · rw [← hkeys] at nd
    exact (((List.perm_insertionSort entryLe (rs.map g)).map Prod.fst).symm).nodup nd
  · exact List.sorted_insertionSort entryLe (rs.map g)
  · refine List.pairwise_map.mpr ?_
    refine (List.sorted_insertionSort pLe rs).imp ?_
    intro a b hab
    show pathLe (g a).1 (g b).1 = true
    rw [hg a, hg b]
    exact hab

/-- The spec-side shape of the renumbered real fragments: the `i`-th fragment
of the sorted path list carries embedded index `n + i`. -/
def indexedFrom (content : String → String) : Nat → List String → List String
  | _, [] => []
  | n, p :: ps => generate_single_file_snippet p (content p) n :: indexedFrom content (n + 1) ps

theorem number_from_map (content : String → String) (l : List String) (n : Nat) :
    number_from n (l.map (fun p => generate_single_file_snippet p (content p) 0))
      = indexedFrom content n l := by
  induction l generalizing n with
  | nil => rfl
  | cons p ps ih =>
    simp only [List.map_cons, number_from, indexedFrom, set_fragment_index_gen]
    rw [ih]

/-- The merged document is a pure function of the cache CONTENTS: permuting
the association list (with unique keys) leaves the output unchanged. -/
theorem merge_perm (d₁ d₂ : List (String × String)) (nd : (d₁.map Prod.fst).Nodup)
    (h : d₁.Perm d₂) : merge_all_snippets d₁ = merge_all_snippets d₂ := by
  have hfilter : ((d₁.filter (fun e => e.1 != PROJECT_TREE_VIRTUAL_PATH)).map Prod.fst).Nodup :=
    List.Nodup.sublist ((List.filter_sublist d₁).map Prod.fst) nd
  have h1 : List.lookup PROJECT_TREE_VIRTUAL_PATH d₁ = List.lookup PROJECT_TREE_VIRTUAL_PATH d₂ :=
    lookup_perm PROJECT_TREE_VIRTUAL_PATH d₁ d₂ h nd
  have h2 : List.insertionSort entryLe (d₁.filter (fun e => e.1 != PROJECT_TREE_VIRTUAL_PATH))
      = List.insertionSort entryLe (d₂.filter (fun e => e.1 != PROJECT_TREE_VIRTUAL_PATH)) :=
    insertionSort_perm_eq _ _ (h.filter _) hfilter
  simp only [merge_all_snippets, h1, h2]

/-- Evaluating the merge on a well-formed cache (one virtual entry plus one
placeholder-indexed fragment per distinct real path) in canonical order. -/
theorem merge_canonical (rs : List String) (t : String) (content : String → String)
    (nd : rs.Nodup) (hv : PROJECT_TREE_VIRTUAL_PATH ∉ rs) :
    merge_all_snippets
        ((PROJECT_TREE_VIRTUAL_PATH,
            generate_single_file_snippet PROJECT_TREE_VIRTUAL_PATH t 0)
          :: rs.map (fun p => (p, generate_single_file_snippet p (content p) 0)))
      = "<documents>\n" ++ (joinNl (generate_single_file_snippet PROJECT_TREE_VIRTUAL_PATH t 1
          :: indexedFrom content 2 (List.insertionSort pLe rs)) ++ "\n</documents>") := by
  have h1 : List.lookup PROJECT_TREE_VIRTUAL_PATH
      ((PROJECT_TREE_VIRTUAL_PATH, generate_single_file_snippet PROJECT_TREE_VIRTUAL_PATH t 0)
        :: rs.map (fun p => (p, generate_single_file_snippet p (content p) 0)))
      = some (generate_single_file_snippet PROJECT_TREE_VIRTUAL_PATH t 0) := by
    simp [List.lookup]
  have h2 : ((PROJECT_TREE_VIRTUAL_PATH,
        generate_single_file_snippet PROJECT_TREE_VIRTUAL_PATH t 0)
        :: rs.map (fun p => (p, generate_single_file_snippet p (content p) 0))).filter
          (fun e => e.1 != PROJECT_TREE_VIRTUAL_PATH)
      = rs.map (fun p => (p, generate_single_file_snippet p (content p) 0)) := by
    rw [List.filter_cons_of_neg (by simp)]
    refine List.filter_eq_self.mpr ?_
    intro e he
    rcases List.mem_map.mp he with ⟨p, hp, rfl⟩
    exact bne_iff_ne.mpr (fun hc => hv (hc ▸ hp))
  simp only [merge_all_snippets, h1, h2]
  rw [insertionSort_map (fun p => (p, generate_single_file_snippet p (content p) 0))
    (fun p => rfl) rs nd]
  rw [List.map_map]
  have h3 : (Prod.snd ∘ fun p => (p, generate_single_file_snippet p (content p) 0))
      = fun p => generate_single_file_snippet p (content p) 0 := rfl
  rw [h3, number_from_map]
  simp only [set_fragment_index_gen, List.singleton_append]

/-- C1: the merge places the virtual project-tree fragment first with embedded
index 1 and the real fragments after it with indices 2..N in ascending path
order, and the merged text is a pure function of the cache contents — any
permutation of the (unique-key) cache yields the identical document. -/
theorem c1_merge_order_and_determinism :
    (∀ d₁ d₂ : List (String × String), (d₁.map Prod.fst).Nodup → d₁.Perm d₂ →
        merge_all_snippets d₁ = merge_all_snippets d₂) ∧
    (∀ (rs : List String) (t : String) (content : String → String)
        (docs : List (String × String)),
        rs.Nodup → PROJECT_TREE_VIRTUAL_PATH ∉ rs →
        docs.Perm ((PROJECT_TREE_VIRTUAL_PATH,
            generate_single_file_snippet PROJECT_TREE_VIRTUAL_PATH t 0)
          :: rs.map (fun p => (p, generate_single_file_snippet p (content p) 0))) →
        merge_all_snippets docs
          = "<documents>\n" ++ (joinNl (generate_single_file_snippet PROJECT_TREE_VIRTUAL_PATH t 1
              :: indexedFrom content 2 (List.insertionSort pLe rs)) ++ "\n</documents>")) := by
  constructor
  · exact fun d₁ d₂ nd h => merge_perm d₁ d₂ nd h
  · intro rs t content docs ndrs hv hperm
    have hkeys : (((PROJECT_TREE_VIRTUAL_PATH,
          generate_single_file_snippet PROJECT_TREE_VIRTUAL_PATH t 0)
          :: rs.map (fun p => (p, generate_single_file_snippet p (content p) 0))).map
            Prod.fst).Nodup := by
      rw [List.map_cons, List.map_map]
      have : (Prod.fst ∘ fun p => (p, generate_single_file_snippet p (content p) 0)) = id := rfl
      rw [this, List.map_id]
      exact List.nodup_cons.mpr ⟨hv, ndrs⟩
    have nd_docs : (docs.map Prod.fst).Nodup := ((hperm.map Prod.fst).symm).nodup hkeys
    rw [merge_perm docs _ nd_docs hperm, merge_canonical rs t content ndrs hv]

/-- C1 witness: a three-entry cache given in reverse order merges into the
canonical document (virtual tree at index 1, then `a` and `b`). -/
theorem c1_witness :
    merge_all_snippets
        [("b", generate_single_file_snippet "b" "B" 0),
         ("a", generate_single_file_snippet "a" "A" 0),
         (PROJECT_TREE_VIRTUAL_PATH, generate_single_file_snippet PROJECT_TREE_VIRTUAL_PATH "T" 0)]
      = "<documents>\n" ++ (joinNl (generate_single_file_snippet PROJECT_TREE_VIRTUAL_PATH "T" 1
          :: indexedFrom (fun p => if p = "a" then "A" else "B") 2
              (List.insertionSort pLe ["b", "a"])) ++ "\n</documents>") :=
  c1_merge_order_and_determinism.2 ["b", "a"] "T" (fun p => if p = "a" then "A" else "B")
    _ (by decide) (by decide) (by decide)

end RustPrompt
